import Mathlib

/-!
Verification development for the roocode-mcp-server repository.

The embedding below translates the task-state cache and event ingestion
logic of `EventStreamingServer` (src/tools/event-streaming-server.ts),
the HTTP session routing of `MCPServer.setupRoutes` (src/server.ts), and
the `RooCodeTaskAPI` capability wrapper (src/tools/task-management-tools.ts)
into executable Lean definitions, and proves the specification's claims
about them.

Modelling conventions:
* JavaScript values reaching the cache are modelled by `JVal`: `jsUndefined`
  covers `undefined`/`null` and other falsy non-strings, `str` is a string
  value, and `obj` is an object carrying an optional string `taskId` field
  plus a numeric identity tag (JS `Map` keys objects by reference
  identity, which the tag models).
* `Date.now()` / ISO timestamps are modelled as a `Nat` clock held in the
  server state; `setTimeout(fn, 30000)` becomes a pending `(key, deadline)`
  timer entry, fired when the clock passes the deadline.
* A JS `Map` is an association list with unique keys; `get`/`set`/`delete`
  are the structural operations `cacheGet`/`cacheSet`/`cacheDelete`.
-/

/-- A JavaScript value as far as the cache logic inspects it. -/
inductive JVal where
  | jsUndefined : JVal
  | str : String → JVal
  | obj : Option String → Nat → JVal
deriving DecidableEq, Repr

/-- JS truthiness for the values `JVal` models: `undefined`/`null` and the
empty string are falsy, every object and nonempty string is truthy. -/
def jtruthy : JVal → Bool
  | .jsUndefined => false
  | .str s => s ≠ ""
  | .obj _ _ => true

/-- The property access `v?.taskId`: an object's `taskId` field (a string
when present), `undefined` otherwise (strings have no such property). -/
def dotTaskId : JVal → JVal
  | .obj (some t) _ => .str t
  | _ => .jsUndefined

/-- `const taskId = data[0]?.taskId || data[0]` followed by the
`if (!taskId) return` guard in `updateTaskStateCache`: the extracted cache
key, or `none` when the event carries no usable task identifier. -/
def extractTaskId (data : List JVal) : Option JVal :=
  let x := data.headD .jsUndefined
  let t := dotTaskId x
  let taskId := if jtruthy t then t else x
  if jtruthy taskId then some taskId else none

/-- One entry of a task's message history (`{timestamp, content}`). -/
structure CacheMessage where
  timestamp : Nat
  content : JVal
deriving DecidableEq, Repr

/-- The `TaskState` interface of event-streaming-server.ts. -/
structure TaskState where
  taskId : JVal
  status : String
  lastUpdate : Nat
  messages : List CacheMessage
deriving DecidableEq, Repr

/-- `MAX_MESSAGES_PER_TASK` from the source. -/
def MAX_MESSAGES_PER_TASK : Nat := 50

/-- The `setTimeout` delay before a terminal task is purged (30000 ms). -/
def cleanupDelayMs : Nat := 30000

/-- The task-state cache, a JS `Map<string, TaskState>` whose keys may in
principle also be objects (the fallback branch of the id extraction). -/
abbrev TaskCache := List (JVal × TaskState)

/-- `Map.get`. -/
def cacheGet : TaskCache → JVal → Option TaskState
  | [], _ => none
  | (k, v) :: rest, key => if k = key then some v else cacheGet rest key

/-- `Map.set`: replaces the value at an existing key in place, appends a
new entry otherwise. -/
def cacheSet : TaskCache → JVal → TaskState → TaskCache
  | [], key, v => [(key, v)]
  | (k, v') :: rest, key, v =>
    if k = key then (key, v) :: rest else (k, v') :: cacheSet rest key v

/-- `Map.delete`. -/
def cacheDelete : TaskCache → JVal → TaskCache
  | [], _ => []
  | (k, v) :: rest, key => if k = key then rest else (k, v) :: cacheDelete rest key

/-- The whole observable state of the event streaming server: the task
cache, the pending deferred deletions, and the current clock. -/
structure EventServerState where
  cache : TaskCache
  timers : List (JVal × Nat)
  now : Nat
deriving DecidableEq, Repr

/-- State at server construction: empty cache, no pending deletions. -/
def initialState : EventServerState := { cache := [], timers := [], now := 0 }

/-- `data[1] || data[0]`: the content stored for a `message` event. -/
def messageContent (data : List JVal) : JVal :=
  if jtruthy (data.getD 1 .jsUndefined) then data.getD 1 .jsUndefined else data.getD 0 .jsUndefined

/-- The `slice(-MAX_MESSAGES_PER_TASK)` trim applied after pushing a
message, guarded by the length check as in the source. -/
def trimMessages (msgs : List CacheMessage) : List CacheMessage :=
  if msgs.length > MAX_MESSAGES_PER_TASK then
    msgs.drop (msgs.length - MAX_MESSAGES_PER_TASK)
  else msgs

/-- The `switch (eventName)` body of `updateTaskStateCache`, acting on the
record (with `lastUpdate` already refreshed). The boolean reports whether
this event scheduled a deferred deletion (`setTimeout(..., 30000)`). -/
def applySwitch (eventName : String) (data : List JVal) (now : Nat)
    (ts : TaskState) : TaskState × Bool :=
  if eventName = "taskCreated" then ({ ts with status := "created" }, false)
  else if eventName = "taskStarted" then ({ ts with status := "started" }, false)
  else if eventName = "taskActive" then ({ ts with status := "active" }, false)
  else if eventName = "taskInteractive" then ({ ts with status := "interactive" }, false)
  else if eventName = "taskIdle" then ({ ts with status := "idle" }, false)
  else if eventName = "taskCompleted" then ({ ts with status := "completed" }, true)
  else if eventName = "taskAborted" then ({ ts with status := "aborted" }, true)
  else if eventName = "taskResumable" then ({ ts with status := "resumable" }, false)
  else if eventName = "message" then
    ({ ts with messages :=
        trimMessages (ts.messages ++ [⟨now, messageContent data⟩]) }, false)
  else (ts, false)

/-- The get-or-create step of `updateTaskStateCache`: the existing record,
or a fresh one with sentinel status `"unknown"` and empty history. -/
def getOrCreate (s : EventServerState) (tid : JVal) : TaskState :=
  match cacheGet s.cache tid with
  | some t => t
  | none => { taskId := tid, status := "unknown", lastUpdate := s.now, messages := [] }

/-- `EventStreamingServer.updateTaskStateCache`: extract the task id (or
ignore the event), get or create the record, refresh `lastUpdate`, apply
the event switch, store the record, and register any deferred deletion. -/
def updateTaskStateCache (eventName : String) (data : List JVal)
    (s : EventServerState) : EventServerState :=
  match extractTaskId data with
  | none => s
  | some taskId =>
    let ts1 := { getOrCreate s taskId with lastUpdate := s.now }
    let p := applySwitch eventName data s.now ts1
    { s with
      cache := cacheSet s.cache taskId p.1,
      timers := if p.2 then s.timers ++ [(taskId, s.now + cleanupDelayMs)] else s.timers }

/-- Runs every pending `setTimeout` callback whose deadline has passed, in
scheduling order; each fired callback deletes its task id from the cache. -/
def fireDue : List (JVal × Nat) → Nat → TaskCache → List (JVal × Nat) × TaskCache
  | [], _, cache => ([], cache)
  | (tid, d) :: rest, now, cache =>
    if d ≤ now then fireDue rest now (cacheDelete cache tid)
    else
      let p := fireDue rest now cache
      ((tid, d) :: p.1, p.2)

/-- Advances the clock by `d` milliseconds and fires the timers that
become due. -/
def advanceTime (d : Nat) (s : EventServerState) : EventServerState :=
  let now := s.now + d
  let p := fireDue s.timers now s.cache
  { cache := p.2, timers := p.1, now := now }

/-- The normalized envelope `{event, timestamp, data}` built by
`forwardEventToClients` and sent as an MCP logging notification. -/
structure EventEnvelope where
  event : String
  timestamp : Nat
  data : List JVal
deriving DecidableEq, Repr

/-- `forwardEventToClients`: wraps the event in its envelope. -/
def forwardEventToClients (eventName : String) (data : List JVal) (now : Nat) :
    EventEnvelope :=
  { event := eventName, timestamp := now, data := data }

/-- The listener installed by `initializeRooCodeEventForwarding` for every
subscribed event name: forward the envelope to clients and update the
task-state cache, unconditionally in that order. -/
def handleRooCodeEvent (eventName : String) (data : List JVal)
    (s : EventServerState) : EventEnvelope × EventServerState :=
  (forwardEventToClients eventName data s.now, updateTaskStateCache eventName data s)

/-- One externally visible step of the event server: ingesting one
collaborator event, or letting time pass (firing due deletions). -/
inductive ServerAction where
  | ingest : String → List JVal → ServerAction
  | elapse : Nat → ServerAction
deriving DecidableEq, Repr

/-- Applies one action to the server state. -/
def stepAction : ServerAction → EventServerState → EventServerState
  | .ingest e data, s => updateTaskStateCache e data s
  | .elapse d, s => advanceTime d s

/-- Runs a sequence of actions from a starting state. -/
def runActions (acts : List ServerAction) (s : EventServerState) : EventServerState :=
  acts.foldl (fun st a => stepAction a st) s

/-- Result shape of `getTaskState`: one record (or `null`), or the whole
cache when no task id is supplied. -/
inductive TaskStateQueryResult where
  | single : Option TaskState → TaskStateQueryResult
  | table : TaskCache → TaskStateQueryResult
deriving DecidableEq, Repr

/-- `EventStreamingServer.getTaskState(taskId?)`: the record for the given
id (`null` when absent), or the entire cache when the argument is omitted
or falsy (the `if (taskId)` guard). -/
def getTaskState (s : EventServerState) (taskId : Option String) :
    TaskStateQueryResult :=
  match taskId with
  | some tid => if tid ≠ "" then .single (cacheGet s.cache (.str tid)) else .table s.cache
  | none => .table s.cache

/-- Message histories of every record in a cache are within the cap. -/
def cacheBounded (c : TaskCache) : Prop :=
  ∀ p ∈ c, p.2.messages.length ≤ MAX_MESSAGES_PER_TASK

/-- The most recent `n` entries of a list (what `slice(-n)` retains). -/
def lastN (n : Nat) (l : List CacheMessage) : List CacheMessage :=
  l.drop (l.length - n)

/-- Deadlines of the pending deferred deletions for one task id. -/
def timersFor (timers : List (JVal × Nat)) (tid : JVal) : List Nat :=
  (timers.filter (fun p => decide (p.1 = tid))).map Prod.snd

/-!
## HTTP session routing (`MCPServer.setupRoutes`, src/server.ts)

The POST `/mcp` handler branches on the `mcp-session-id` header: a truthy
header naming a registered transport is routed to it; a falsy (absent or
empty) header creates a fresh `StreamableHTTPServerTransport`; a truthy
header naming no registered transport is answered with the
`-32000 / Invalid or expired session ID` JSON-RPC error and nothing else
happens.
-/

/-- One duplex channel (`StreamableHTTPServerTransport`): its object
identity and the session id assigned at initialization, if any. -/
structure Transport where
  id : Nat
  sessionId : Option String
deriving DecidableEq, Repr

/-- The `transports: Map<string, StreamableHTTPServerTransport>` registry
plus a source of fresh channel identities. -/
structure McpHttpState where
  transports : List (String × Transport)
  nextTransportId : Nat
deriving DecidableEq, Repr

/-- `Map.get` on the transports registry. -/
def sessionLookup : List (String × Transport) → String → Option Transport
  | [], _ => none
  | (k, t) :: rest, sid => if k = sid then some t else sessionLookup rest sid

/-- An inbound POST `/mcp` request as far as the route handler and the
channel inspect it: the `mcp-session-id` header value and whether the body
is an MCP initialization request. -/
structure PostRequest where
  sessionIdHeader : Option String
  isInitialize : Bool
deriving DecidableEq, Repr

/-- What the handler sends back: a JSON-RPC error envelope
(HTTP status, error code, message), or the response produced by handing
the request to the channel with the given identity. -/
inductive HttpResponse where
  | json : Nat → Int → String → HttpResponse
  | handledBy : Nat → HttpResponse
deriving DecidableEq, Repr

/-- Modelled from the spec: the behavior of the freshly constructed SDK
channel (`StreamableHTTPServerTransport.handleRequest` with a
`sessionIdGenerator` and the `onsessioninitialized` callback of
src/server.ts), which is third-party code not in this repository. Per the
spec, absence of a session header plus an initialization payload allocates
a new session identifier (`freshId`, standing for `randomUUID()`), binds
the new channel to it, and fires the registration callback, which inserts
the channel into the registry; a non-initialization payload with no
session is rejected and the callback never fires. -/
def handleNewTransport (st : McpHttpState) (freshId : String) (req : PostRequest) :
    McpHttpState × HttpResponse :=
  let t : Transport :=
    { id := st.nextTransportId,
      sessionId := if req.isInitialize then some freshId else none }
  if req.isInitialize then
    ({ transports := st.transports ++ [(freshId, t)],
       nextTransportId := st.nextTransportId + 1 },
     .handledBy t.id)
  else
    ({ st with nextTransportId := st.nextTransportId + 1 },
     .json 400 (-32000) "Bad Request: no session and not an initialization request")

/-- The POST `/mcp` route handler of `MCPServer.setupRoutes`. The source
tests, in order, `sessionId && transports.has(sessionId)` (reuse),
`!sessionId` (new channel), and otherwise answers the invalid-session
error; the branching below is the same function of the two conditions,
with the header's absent and empty cases collapsed as JS truthiness does. -/
def handlePost (st : McpHttpState) (freshId : String) (req : PostRequest) :
    McpHttpState × HttpResponse :=
  let sessionId := req.sessionIdHeader.getD ""
  if sessionId = "" then
    handleNewTransport st freshId req
  else
    match sessionLookup st.transports sessionId with
    | some t => (st, .handledBy t.id)
    | none => (st, .json 400 (-32000) "Invalid or expired session ID")

/-!
## Capability client (`RooCodeTaskAPI`, src/tools/task-management-tools.ts)

Each operation guards on extension availability, calls the collaborator's
exported function, and on failure logs a diagnostic naming the operation
and rethrows the same error (`throw error`). The collaborator call's
outcome is passed in as an `Except` value; the returned pair is the
operation's own outcome plus the error-path log lines it emitted.
-/

/-- A JS `Error` as far as these wrappers inspect it. -/
structure JsError where
  message : String
deriving DecidableEq, Repr

/-- The resolved `vscode.Extension` handle fields the guards read. -/
structure ExtensionHandle where
  isActive : Bool
  hasExports : Bool
deriving DecidableEq, Repr

/-- The guard `!this.extension || !this.extension.isActive ||
!this.extension.exports` shared by all four operations. -/
def extensionUnavailable : Option ExtensionHandle → Bool
  | none => true
  | some e => !e.isActive || !e.hasExports

/-- The error thrown when the guard fails. -/
def unavailableError : JsError :=
  ⟨"RooCode extension not available - please ensure it is installed and activated"⟩

/-- `RooCodeTaskAPI.startNewTask`. -/
def startNewTask (ext : Option ExtensionHandle) (call : Except JsError Unit) :
    Except JsError Unit × List String :=
  if extensionUnavailable ext then (.error unavailableError, [])
  else
    match call with
    | .ok _ => (.ok (), [])
    | .error e => (.error e, ["[RooCodeTaskAPI] Error starting task: " ++ e.message])

/-- `RooCodeTaskAPI.sendMessage`. -/
def sendMessage (ext : Option ExtensionHandle) (call : Except JsError Unit) :
    Except JsError Unit × List String :=
  if extensionUnavailable ext then (.error unavailableError, [])
  else
    match call with
    | .ok _ => (.ok (), [])
    | .error e => (.error e, ["[RooCodeTaskAPI] Error sending message: " ++ e.message])

/-- `RooCodeTaskAPI.pressPrimaryButton` (approve). -/
def pressPrimaryButton (ext : Option ExtensionHandle) (call : Except JsError Unit) :
    Except JsError Unit × List String :=
  if extensionUnavailable ext then (.error unavailableError, [])
  else
    match call with
    | .ok _ => (.ok (), [])
    | .error e => (.error e, ["[RooCodeTaskAPI] Error pressing primary button: " ++ e.message])

/-- `RooCodeTaskAPI.pressSecondaryButton` (deny). -/
def pressSecondaryButton (ext : Option ExtensionHandle) (call : Except JsError Unit) :
    Except JsError Unit × List String :=
  if extensionUnavailable ext then (.error unavailableError, [])
  else
    match call with
    | .ok _ => (.ok (), [])
    | .error e => (.error e, ["[RooCodeTaskAPI] Error pressing secondary button: " ++ e.message])

/-!
## Concrete traces used by counterexamples and witnesses
-/

/-- Messages of the single record a query returned, `[]` otherwise. -/
def queryMessages : TaskStateQueryResult → List CacheMessage
  | .single (some r) => r.messages
  | _ => []

/-- Six `message` events for one task: the poll read-back scenario. -/
def pollTrace : List ServerAction :=
  [.ingest "message" [.str "T1", .str "m1"],
   .ingest "message" [.str "T1", .str "m2"],
   .ingest "message" [.str "T1", .str "m3"],
   .ingest "message" [.str "T1", .str "m4"],
   .ingest "message" [.str "T1", .str "m5"],
   .ingest "message" [.str "T1", .str "m6"]]

/-- A task that completes, is restarted, and completes again within the
grace window: the first (never cancelled) deferred deletion then fires
28 seconds after the second terminal transition. -/
def staleTimerTrace : List ServerAction :=
  [.ingest "taskCompleted" [.str "T"],
   .elapse 1000,
   .ingest "taskStarted" [.str "T"],
   .elapse 1000,
   .ingest "taskCompleted" [.str "T"],
   .elapse 28000]

/-- A task that completes and, well after the retention window, receives a
further `message` event, which re-creates a record under the same id. -/
def reappearTrace : List ServerAction :=
  [.ingest "taskCompleted" [.str "T2"],
   .elapse 40000,
   .ingest "message" [.str "T2", .str "m"]]

/-- A terminal overwrite: a message, completion, then a restart event for
the same identifier. -/
def overwriteTrace : List ServerAction :=
  [.ingest "message" [.str "T1", .str "hello"],
   .ingest "taskCompleted" [.str "T1"],
   .ingest "taskStarted" [.str "T1"]]

/-!
## Structural lemmas about the cache, timers, and steps
-/

theorem cacheGet_cacheSet_self (c : TaskCache) (k : JVal) (v : TaskState) :
    cacheGet (cacheSet c k v) k = some v := by
  induction c with
  | nil => simp [cacheSet, cacheGet]
  | cons p rest ih =>
    obtain ⟨a, b⟩ := p
    by_cases h : a = k
    · subst h; simp [cacheSet, cacheGet]
    · simp [cacheSet, cacheGet, h, ih]

theorem cacheGet_cacheSet_ne (c : TaskCache) (k k' : JVal) (v : TaskState)
    (h : k' ≠ k) : cacheGet (cacheSet c k v) k' = cacheGet c k' := by
  induction c with
  | nil => simp [cacheSet, cacheGet, Ne.symm h]
  | cons p rest ih =>
    obtain ⟨a, b⟩ := p
    by_cases hk : a = k
    · subst hk; simp [cacheSet, cacheGet, Ne.symm h]
    · by_cases ha : a = k' <;> simp [cacheSet, cacheGet, hk, ha, ih, h]

theorem cacheGet_isSome_cacheSet (c : TaskCache) (k k' : JVal) (v : TaskState)
    (h : (cacheGet c k').isSome) : (cacheGet (cacheSet c k v) k').isSome := by
  by_cases hk : k' = k
  · subst hk; simp [cacheGet_cacheSet_self]
  · rwa [cacheGet_cacheSet_ne _ _ _ _ hk]

theorem cacheGet_cacheDelete_ne (c : TaskCache) (k k' : JVal) (h : k' ≠ k) :
    cacheGet (cacheDelete c k) k' = cacheGet c k' := by
  induction c with
  | nil => simp [cacheDelete]
  | cons p rest ih =>
    obtain ⟨a, b⟩ := p
    by_cases hk : a = k
    · subst hk; simp [cacheDelete, cacheGet, Ne.symm h]
    · by_cases ha : a = k' <;> simp [cacheDelete, cacheGet, hk, ha, ih, h]

theorem mem_cacheDelete (c : TaskCache) (k : JVal) (p : JVal × TaskState)
    (h : p ∈ cacheDelete c k) : p ∈ c := by
  induction c with
  | nil => simp [cacheDelete] at h
  | cons q rest ih =>
    obtain ⟨a, b⟩ := q
    by_cases hk : a = k
    · subst hk
      rw [show cacheDelete ((a, b) :: rest) a = rest by simp [cacheDelete]] at h
      exact List.mem_cons_of_mem _ h
    · simp only [cacheDelete, if_neg hk, List.mem_cons] at h
      rcases h with h | h
      · exact h ▸ List.mem_cons_self _ _
      · exact List.mem_cons_of_mem _ (ih h)

theorem cacheGet_cacheDelete_none (c : TaskCache) (k k' : JVal)
    (h : cacheGet c k' = none) : cacheGet (cacheDelete c k) k' = none := by
  induction c with
  | nil => simp [cacheDelete, cacheGet]
  | cons p rest ih =>
    obtain ⟨a, b⟩ := p
    by_cases ha : a = k'
    · subst ha; simp [cacheGet] at h
    · simp only [cacheGet, if_neg ha] at h
      by_cases hk : a = k
      · subst hk; simp [cacheDelete, h]
      · simp [cacheDelete, cacheGet, hk, ha, ih h]

theorem cacheGet_none_iff (c : TaskCache) (k : JVal) :
    cacheGet c k = none ↔ k ∉ c.map Prod.fst := by
  induction c with
  | nil => simp [cacheGet]
  | cons p rest ih =>
    obtain ⟨a, b⟩ := p
    by_cases ha : a = k
    · subst ha; simp [cacheGet]
    · simp [cacheGet, ha, ih, Ne.symm ha]

theorem cacheGet_cacheDelete_self (c : TaskCache) (k : JVal)
    (h : (c.map Prod.fst).Nodup) : cacheGet (cacheDelete c k) k = none := by
  induction c with
  | nil => simp [cacheDelete, cacheGet]
  | cons p rest ih =>
    obtain ⟨a, b⟩ := p
    simp only [List.map_cons, List.nodup_cons] at h
    by_cases ha : a = k
    · subst ha
      rw [show cacheDelete ((a, b) :: rest) a = rest by simp [cacheDelete]]
      exact (cacheGet_none_iff rest a).2 h.1
    · simp [cacheDelete, cacheGet, ha, ih h.2]

theorem mem_cacheSet (c : TaskCache) (k : JVal) (v : TaskState)
    (q : JVal × TaskState) : q ∈ cacheSet c k v → q ∈ c ∨ q = (k, v) := by
  induction c with
  | nil => intro hq; simpa [cacheSet] using hq
  | cons r rs ihr =>
    obtain ⟨x, y⟩ := r
    intro hq
    by_cases hx : x = k
    · subst hx
      simp [cacheSet] at hq
      rcases hq with hq | hq
      · exact Or.inr hq
      · exact Or.inl (List.mem_cons_of_mem _ hq)
    · simp only [cacheSet, if_neg hx, List.mem_cons] at hq
      rcases hq with hq | hq
      · exact Or.inl (hq ▸ List.mem_cons_self _ _)
      · rcases ihr hq with h1 | h1
        · exact Or.inl (List.mem_cons_of_mem _ h1)
        · exact Or.inr h1

theorem nodup_cacheSet (c : TaskCache) (k : JVal) (v : TaskState)
    (h : (c.map Prod.fst).Nodup) : ((cacheSet c k v).map Prod.fst).Nodup := by
  induction c with
  | nil => simp [cacheSet]
  | cons p rest ih =>
    obtain ⟨a, b⟩ := p
    simp only [List.map_cons, List.nodup_cons] at h
    by_cases ha : a = k
    · subst ha; simpa [cacheSet] using h
    · have hmem : a ∉ (cacheSet rest k v).map Prod.fst := by
        intro hm
        rcases List.mem_map.1 hm with ⟨q, hq, hfst⟩
        rcases mem_cacheSet rest k v q hq with hmem2 | hmem2
        · exact h.1 (hfst ▸ List.mem_map_of_mem Prod.fst hmem2)
        · exact ha (by rw [hmem2] at hfst; exact hfst ▸ rfl)
      simp only [cacheSet, if_neg ha, List.map_cons, List.nodup_cons]
      exact ⟨hmem, ih h.2⟩

theorem nodup_cacheDelete (c : TaskCache) (k : JVal)
    (h : (c.map Prod.fst).Nodup) : ((cacheDelete c k).map Prod.fst).Nodup := by
  induction c with
  | nil => simp [cacheDelete]
  | cons p rest ih =>
    obtain ⟨a, b⟩ := p
    simp only [List.map_cons, List.nodup_cons] at h
    by_cases ha : a = k
    · subst ha; simpa [cacheDelete] using h.2
    · have hmem : a ∉ (cacheDelete rest k).map Prod.fst := by
        intro hm
        rcases List.mem_map.1 hm with ⟨q, hq, hfst⟩
        exact h.1 (hfst ▸ List.mem_map_of_mem Prod.fst (mem_cacheDelete rest k q hq))
      simp only [cacheDelete, if_neg ha, List.map_cons, List.nodup_cons]
      exact ⟨hmem, ih h.2⟩

theorem trimMessages_eq_lastN (msgs : List CacheMessage) :
    trimMessages msgs = lastN MAX_MESSAGES_PER_TASK msgs := by
  unfold trimMessages lastN
  split
  · rfl
  · next h =>
    rw [Nat.sub_eq_zero_of_le (Nat.le_of_not_lt h)]
    simp

theorem lastN_length_le (n : Nat) (l : List CacheMessage) : (lastN n l).length ≤ n := by
  simp only [lastN, List.length_drop]
  omega

theorem updateTaskStateCache_none (e : String) (data : List JVal)
    (s : EventServerState) (h : extractTaskId data = none) :
    updateTaskStateCache e data s = s := by
  unfold updateTaskStateCache
  rw [h]

theorem updateTaskStateCache_some (e : String) (data : List JVal)
    (s : EventServerState) (tid : JVal) (h : extractTaskId data = some tid) :
    updateTaskStateCache e data s =
      { s with
        cache := cacheSet s.cache tid
          (applySwitch e data s.now { getOrCreate s tid with lastUpdate := s.now }).1,
        timers :=
          if (applySwitch e data s.now { getOrCreate s tid with lastUpdate := s.now }).2
          then s.timers ++ [(tid, s.now + cleanupDelayMs)] else s.timers } := by
  unfold updateTaskStateCache
  rw [h]

theorem status_after_update (e : String) (data : List JVal) (s : EventServerState)
    (tid : JVal) (h : extractTaskId data = some tid) :
    (cacheGet (updateTaskStateCache e data s).cache tid).map TaskState.status =
      some (applySwitch e data s.now
        { getOrCreate s tid with lastUpdate := s.now }).1.status := by
  rw [updateTaskStateCache_some e data s tid h]
  simp [cacheGet_cacheSet_self]

theorem record_after_update (e : String) (data : List JVal) (s : EventServerState)
    (tid : JVal) (h : extractTaskId data = some tid) :
    cacheGet (updateTaskStateCache e data s).cache tid =
      some (applySwitch e data s.now
        { getOrCreate s tid with lastUpdate := s.now }).1 := by
  rw [updateTaskStateCache_some e data s tid h]
  simp [cacheGet_cacheSet_self]

theorem applySwitch_status_not_table (e : String) (data : List JVal) (now : Nat)
    (ts : TaskState)
    (h : e ∉ (["taskCreated", "taskStarted", "taskActive", "taskInteractive",
               "taskIdle", "taskCompleted", "taskAborted", "taskResumable"] : List String)) :
    (applySwitch e data now ts).1.status = ts.status ∧
      (applySwitch e data now ts).2 = false := by
  simp only [List.mem_cons, List.not_mem_nil, or_false, not_or] at h
  obtain ⟨h1, h2, h3, h4, h5, h6, h7, h8⟩ := h
  unfold applySwitch
  rw [if_neg h1, if_neg h2, if_neg h3, if_neg h4, if_neg h5, if_neg h6, if_neg h7,
    if_neg h8]
  by_cases hm : e = "message"
  · rw [if_pos hm]; exact ⟨rfl, rfl⟩
  · rw [if_neg hm]; exact ⟨rfl, rfl⟩

theorem applySwitch_unrecognized (e : String) (data : List JVal) (now : Nat)
    (ts : TaskState)
    (h : e ∉ (["taskCreated", "taskStarted", "taskActive", "taskInteractive",
               "taskIdle", "taskCompleted", "taskAborted", "taskResumable",
               "message"] : List String)) :
    applySwitch e data now ts = (ts, false) := by
  simp only [List.mem_cons, List.not_mem_nil, or_false, not_or] at h
  obtain ⟨h1, h2, h3, h4, h5, h6, h7, h8, h9⟩ := h
  unfold applySwitch
  rw [if_neg h1, if_neg h2, if_neg h3, if_neg h4, if_neg h5, if_neg h6, if_neg h7,
    if_neg h8, if_neg h9]

theorem applySwitch_messages (e : String) (data : List JVal) (now : Nat)
    (ts : TaskState) :
    (applySwitch e data now ts).1.messages = ts.messages ∨
      (applySwitch e data now ts).1.messages =
        trimMessages (ts.messages ++ [⟨now, messageContent data⟩]) := by
  unfold applySwitch
  split_ifs <;> simp

theorem timersFor_cons (k : JVal) (d : Nat) (rest : List (JVal × Nat)) (tid : JVal) :
    timersFor ((k, d) :: rest) tid =
      (if k = tid then [d] else []) ++ timersFor rest tid := by
  by_cases h : k = tid <;> simp [timersFor, h]

theorem timersFor_append (t1 t2 : List (JVal × Nat)) (tid : JVal) :
    timersFor (t1 ++ t2) tid = timersFor t1 tid ++ timersFor t2 tid := by
  simp [timersFor, List.filter_append]

theorem fireDue_not_due (now : Nat) (tid : JVal) :
    ∀ (timers : List (JVal × Nat)) (c : TaskCache),
      (∀ d ∈ timersFor timers tid, ¬ d ≤ now) →
      cacheGet (fireDue timers now c).2 tid = cacheGet c tid ∧
        timersFor (fireDue timers now c).1 tid = timersFor timers tid := by
  intro timers
  induction timers with
  | nil => intro c _; simp [fireDue]
  | cons p rest ih =>
    intro c h
    obtain ⟨k, dk⟩ := p
    have hrest : ∀ d ∈ timersFor rest tid, ¬ d ≤ now := by
      intro d hd
      exact h d (by rw [timersFor_cons]; exact List.mem_append_right _ hd)
    by_cases hk : k = tid
    · subst hk
      have hdk : ¬ dk ≤ now := h dk (by rw [timersFor_cons]; simp)
      rw [fireDue, if_neg hdk]
      refine ⟨(ih c hrest).1, ?_⟩
      rw [timersFor_cons, timersFor_cons, (ih c hrest).2]
    · rw [fireDue]
      by_cases hdk : dk ≤ now
      · rw [if_pos hdk]
        have := ih (cacheDelete c k) hrest
        refine ⟨this.1.trans (cacheGet_cacheDelete_ne c k tid (Ne.symm hk)), ?_⟩
        rw [this.2, timersFor_cons, if_neg hk, List.nil_append]
      · rw [if_neg hdk]
        refine ⟨(ih c hrest).1, ?_⟩
        rw [timersFor_cons, timersFor_cons, (ih c hrest).2]

theorem fireDue_none (now : Nat) (tid : JVal) :
    ∀ (timers : List (JVal × Nat)) (c : TaskCache), cacheGet c tid = none →
      cacheGet (fireDue timers now c).2 tid = none := by
  intro timers
  induction timers with
  | nil => intro c h; simpa [fireDue] using h
  | cons p rest ih =>
    intro c h
    obtain ⟨k, dk⟩ := p
    rw [fireDue]
    by_cases hdk : dk ≤ now
    · rw [if_pos hdk]
      exact ih _ (cacheGet_cacheDelete_none c k tid h)
    · rw [if_neg hdk]
      exact ih _ h

theorem fireDue_nodup (now : Nat) :
    ∀ (timers : List (JVal × Nat)) (c : TaskCache), (c.map Prod.fst).Nodup →
      (((fireDue timers now c).2).map Prod.fst).Nodup := by
  intro timers
  induction timers with
  | nil => intro c h; simpa [fireDue] using h
  | cons p rest ih =>
    intro c h
    obtain ⟨k, dk⟩ := p
    rw [fireDue]
    by_cases hdk : dk ≤ now
    · rw [if_pos hdk]
      exact ih _ (nodup_cacheDelete c k h)
    · rw [if_neg hdk]
      exact ih _ h

theorem fireDue_single_due (now : Nat) (tid : JVal) (d0 : Nat) :
    ∀ (timers : List (JVal × Nat)) (c : TaskCache),
      timersFor timers tid = [d0] → d0 ≤ now → (c.map Prod.fst).Nodup →
      cacheGet (fireDue timers now c).2 tid = none ∧
        timersFor (fireDue timers now c).1 tid = [] := by
  intro timers
  induction timers with
  | nil => intro c ht _ _; simp [timersFor] at ht
  | cons p rest ih =>
    intro c ht hd hnd
    obtain ⟨k, dk⟩ := p
    by_cases hk : k = tid
    · subst hk
      rw [timersFor_cons, if_pos rfl] at ht
      simp only [List.cons_append, List.nil_append, List.cons.injEq] at ht
      obtain ⟨hdk, hrest⟩ := ht
      subst hdk
      rw [fireDue, if_pos hd]
      constructor
      · exact fireDue_none now k rest _ (cacheGet_cacheDelete_self c k hnd)
      · rw [(fireDue_not_due now k rest (cacheDelete c k) (by rw [hrest]; simp)).2]
        exact hrest
    · rw [timersFor_cons, if_neg hk, List.nil_append] at ht
      rw [fireDue]
      by_cases hdk : dk ≤ now
      · rw [if_pos hdk]
        exact ih (cacheDelete c k) ht hd (nodup_cacheDelete c k hnd)
      · rw [if_neg hdk]
        refine ⟨(ih c ht hd hnd).1, ?_⟩
        rw [timersFor_cons, if_neg hk, List.nil_append]
        exact (ih c ht hd hnd).2

theorem cacheGet_mem (c : TaskCache) (k : JVal) (v : TaskState)
    (h : cacheGet c k = some v) : (k, v) ∈ c := by
  induction c with
  | nil => simp [cacheGet] at h
  | cons p rest ih =>
    obtain ⟨a, b⟩ := p
    by_cases ha : a = k
    · subst ha
      have hbv : b = v := by simpa [cacheGet] using h
      subst hbv
      exact List.mem_cons_self _ _
    · simp only [cacheGet, if_neg ha] at h
      exact List.mem_cons_of_mem _ (ih h)

/-!
## Lemmas about steps, traces, and preserved invariants
-/

theorem runActions_nil (s : EventServerState) : runActions [] s = s := rfl

theorem runActions_cons (a : ServerAction) (acts : List ServerAction)
    (s : EventServerState) : runActions (a :: acts) s = runActions acts (stepAction a s) := rfl

theorem now_updateTaskStateCache (e : String) (data : List JVal)
    (s : EventServerState) : (updateTaskStateCache e data s).now = s.now := by
  cases hext : extractTaskId data with
  | none => rw [updateTaskStateCache_none e data s hext]
  | some tid => rw [updateTaskStateCache_some e data s tid hext]

theorem now_le_stepAction (a : ServerAction) (s : EventServerState) :
    s.now ≤ (stepAction a s).now := by
  cases a with
  | ingest e data => rw [stepAction, now_updateTaskStateCache]
  | elapse d => exact Nat.le_add_right s.now d

theorem now_le_runActions (acts : List ServerAction) :
    ∀ s : EventServerState, s.now ≤ (runActions acts s).now := by
  induction acts with
  | nil => intro s; exact Nat.le_refl _
  | cons a rest ih =>
    intro s
    rw [runActions_cons]
    exact (now_le_stepAction a s).trans (ih (stepAction a s))

theorem update_frame (e : String) (data : List JVal) (s : EventServerState)
    (tid : JVal) (h : ∀ k, extractTaskId data = some k → k ≠ tid) :
    cacheGet (updateTaskStateCache e data s).cache tid = cacheGet s.cache tid ∧
      timersFor (updateTaskStateCache e data s).timers tid = timersFor s.timers tid := by
  cases hext : extractTaskId data with
  | none => rw [updateTaskStateCache_none e data s hext]; exact ⟨rfl, rfl⟩
  | some k =>
    have hk := h k hext
    rw [updateTaskStateCache_some e data s k hext]
    constructor
    · exact cacheGet_cacheSet_ne s.cache k tid _ (Ne.symm hk)
    · dsimp only
      split
      · rw [timersFor_append, timersFor_cons, if_neg hk]
        simp [timersFor]
      · rfl

theorem getOrCreate_bounded (s : EventServerState) (tid : JVal)
    (h : cacheBounded s.cache) :
    (getOrCreate s tid).messages.length ≤ MAX_MESSAGES_PER_TASK := by
  unfold getOrCreate
  cases hg : cacheGet s.cache tid with
  | none => simp
  | some t => exact h (tid, t) (cacheGet_mem s.cache tid t hg)

theorem applySwitch_bounded (e : String) (data : List JVal) (now : Nat)
    (ts : TaskState) (h : ts.messages.length ≤ MAX_MESSAGES_PER_TASK) :
    (applySwitch e data now ts).1.messages.length ≤ MAX_MESSAGES_PER_TASK := by
  rcases applySwitch_messages e data now ts with hm | hm
  · rw [hm]; exact h
  · rw [hm, trimMessages_eq_lastN]
    exact lastN_length_le _ _

theorem cacheBounded_cacheSet (c : TaskCache) (k : JVal) (v : TaskState)
    (h : cacheBounded c) (hv : v.messages.length ≤ MAX_MESSAGES_PER_TASK) :
    cacheBounded (cacheSet c k v) := by
  intro p hp
  rcases mem_cacheSet c k v p hp with h1 | h1
  · exact h p h1
  · rw [h1]; exact hv

theorem cacheBounded_cacheDelete (c : TaskCache) (k : JVal)
    (h : cacheBounded c) : cacheBounded (cacheDelete c k) :=
  fun p hp => h p (mem_cacheDelete c k p hp)

theorem cacheBounded_fireDue (now : Nat) :
    ∀ (timers : List (JVal × Nat)) (c : TaskCache), cacheBounded c →
      cacheBounded (fireDue timers now c).2 := by
  intro timers
  induction timers with
  | nil => intro c h; simpa [fireDue] using h
  | cons p rest ih =>
    intro c h
    obtain ⟨k, dk⟩ := p
    rw [fireDue]
    by_cases hdk : dk ≤ now
    · rw [if_pos hdk]
      exact ih _ (cacheBounded_cacheDelete c k h)
    · rw [if_neg hdk]
      exact ih _ h

theorem stepAction_bounded (a : ServerAction) (s : EventServerState)
    (h : cacheBounded s.cache) : cacheBounded (stepAction a s).cache := by
  cases a with
  | ingest e data =>
    cases hext : extractTaskId data with
    | none => rw [stepAction, updateTaskStateCache_none e data s hext]; exact h
    | some tid =>
      rw [stepAction, updateTaskStateCache_some e data s tid hext]
      exact cacheBounded_cacheSet _ _ _ h
        (applySwitch_bounded e data s.now _ (getOrCreate_bounded s tid h))
  | elapse d => exact cacheBounded_fireDue _ _ _ h

theorem runActions_bounded (acts : List ServerAction) :
    ∀ s : EventServerState, cacheBounded s.cache →
      cacheBounded (runActions acts s).cache := by
  induction acts with
  | nil => intro s h; exact h
  | cons a rest ih =>
    intro s h
    rw [runActions_cons]
    exact ih _ (stepAction_bounded a s h)

theorem nodup_stepAction (a : ServerAction) (s : EventServerState)
    (h : (s.cache.map Prod.fst).Nodup) :
    (((stepAction a s).cache).map Prod.fst).Nodup := by
  cases a with
  | ingest e data =>
    cases hext : extractTaskId data with
    | none => rw [stepAction, updateTaskStateCache_none e data s hext]; exact h
    | some tid =>
      rw [stepAction, updateTaskStateCache_some e data s tid hext]
      exact nodup_cacheSet s.cache tid _ h
  | elapse d => exact fireDue_nodup _ _ _ h

theorem applySwitch_lastUpdate (e : String) (data : List JVal) (now : Nat)
    (ts : TaskState) : (applySwitch e data now ts).1.lastUpdate = ts.lastUpdate := by
  unfold applySwitch
  split_ifs <;> rfl

theorem getOrCreate_none (s : EventServerState) (tid : JVal)
    (h : cacheGet s.cache tid = none) :
    getOrCreate s tid =
      { taskId := tid, status := "unknown", lastUpdate := s.now, messages := [] } := by
  unfold getOrCreate
  rw [h]

theorem getOrCreate_some (s : EventServerState) (tid : JVal) (r : TaskState)
    (h : cacheGet s.cache tid = some r) : getOrCreate s tid = r := by
  unfold getOrCreate
  rw [h]

theorem sessionLookup_append_fresh (k : String) (t : Transport) :
    ∀ m : List (String × Transport), sessionLookup m k = none →
      sessionLookup (m ++ [(k, t)]) k = some t := by
  intro m
  induction m with
  | nil => intro _; simp [sessionLookup]
  | cons p rest ih =>
    intro h
    obtain ⟨a, b⟩ := p
    by_cases ha : a = k
    · simp [sessionLookup, ha] at h
    · rw [List.cons_append, sessionLookup, if_neg ha]
      rw [sessionLookup, if_neg ha] at h
      exact ih h

theorem presence_aux (tid : JVal) (t0 : Nat) :
    ∀ (acts : List ServerAction) (st : EventServerState),
      (cacheGet st.cache tid).isSome = true →
      (∀ d2 ∈ timersFor st.timers tid, t0 ≤ d2) →
      t0 ≤ st.now + cleanupDelayMs →
      (runActions acts st).now < t0 →
      (cacheGet (runActions acts st).cache tid).isSome = true := by
  intro acts
  induction acts with
  | nil => intro st h1 _ _ _; exact h1
  | cons a rest ih =>
    intro st h1 h2 h4 h3
    rw [runActions_cons] at h3 ⊢
    cases a with
    | ingest e data =>
      have hstep : stepAction (.ingest e data) st = updateTaskStateCache e data st := rfl
      cases hext : extractTaskId data with
      | none =>
        rw [hstep, updateTaskStateCache_none e data st hext] at h3 ⊢
        exact ih st h1 h2 h4 h3
      | some k =>
        apply ih _ ?_ ?_ ?_ h3
        · rw [hstep, updateTaskStateCache_some e data st k hext]
          exact cacheGet_isSome_cacheSet st.cache k tid _ h1
        · intro d2 hd2
          rw [hstep, updateTaskStateCache_some e data st k hext] at hd2
          dsimp only at hd2
          split at hd2
          · rw [timersFor_append, timersFor_cons] at hd2
            rcases List.mem_append.1 hd2 with hm | hm
            · exact h2 d2 hm
            · rcases List.mem_append.1 hm with hm2 | hm2
              · split at hm2
                · simp only [List.mem_singleton] at hm2
                  subst hm2
                  exact h4
                · simp at hm2
              · simp [timersFor] at hm2
          · exact h2 d2 hd2
        · rw [hstep, now_updateTaskStateCache]
          exact h4
    | elapse d =>
      have hle : (stepAction (.elapse d) st).now ≤ (runActions rest (stepAction (.elapse d) st)).now :=
        now_le_runActions rest _
      have hlt : st.now + d < t0 := lt_of_le_of_lt hle h3
      have hnotdue : ∀ d2 ∈ timersFor st.timers tid, ¬ d2 ≤ st.now + d := by
        intro d2 hd2 hle2
        exact absurd ((h2 d2 hd2).trans hle2) (not_le_of_lt hlt)
      obtain ⟨hc, ht⟩ := fireDue_not_due (st.now + d) tid st.timers st.cache hnotdue
      apply ih _ ?_ ?_ ?_ h3
      · show (cacheGet (fireDue st.timers (st.now + d) st.cache).2 tid).isSome = true
        rw [hc]
        exact h1
      · intro d2 hd2
        apply h2
        rw [show (stepAction (.elapse d) st).timers = (fireDue st.timers (st.now + d) st.cache).1 from rfl, ht] at hd2
        exact hd2
      · show t0 ≤ st.now + d + cleanupDelayMs
        omega

theorem absence_aux (tid : JVal) (t0 : Nat) :
    ∀ (acts : List ServerAction) (st : EventServerState),
      (∀ e d, ServerAction.ingest e d ∈ acts → extractTaskId d ≠ some tid) →
      (st.cache.map Prod.fst).Nodup →
      ((cacheGet st.cache tid = none ∧ timersFor st.timers tid = []) ∨
        (timersFor st.timers tid = [t0] ∧ st.now < t0)) →
      t0 ≤ (runActions acts st).now →
      cacheGet (runActions acts st).cache tid = none := by
  intro acts
  induction acts with
  | nil =>
    intro st _ _ hinv hge
    rcases hinv with ⟨h1, _⟩ | ⟨_, h2⟩
    · exact h1
    · exact absurd hge (not_le_of_lt h2)
  | cons a rest ih =>
    intro st hni hnd hinv hge
    rw [runActions_cons] at hge ⊢
    refine ih _ (fun e d hm => hni e d (List.mem_cons_of_mem _ hm))
      (nodup_stepAction a st hnd) ?_ hge
    cases a with
    | ingest e data =>
      have hne : ∀ k, extractTaskId data = some k → k ≠ tid := by
        intro k hk heq
        exact hni e data (List.mem_cons_self _ _) (heq ▸ hk)
      obtain ⟨hc, ht⟩ := update_frame e data st tid hne
      have hnow : (stepAction (.ingest e data) st).now = st.now :=
        now_updateTaskStateCache e data st
      rcases hinv with ⟨h1, h2⟩ | ⟨h1, h2⟩
      · exact Or.inl ⟨hc.trans h1, ht.trans h2⟩
      · exact Or.inr ⟨ht.trans h1, by rw [hnow]; exact h2⟩
    | elapse d =>
      have hcache : (stepAction (.elapse d) st).cache =
          (fireDue st.timers (st.now + d) st.cache).2 := rfl
      have htimers : (stepAction (.elapse d) st).timers =
          (fireDue st.timers (st.now + d) st.cache).1 := rfl
      have hnow : (stepAction (.elapse d) st).now = st.now + d := rfl
      rcases hinv with ⟨h1, h2⟩ | ⟨h1, h2⟩
      · refine Or.inl ⟨?_, ?_⟩
        · rw [hcache]
          exact fireDue_none (st.now + d) tid st.timers st.cache h1
        · rw [htimers,
            (fireDue_not_due (st.now + d) tid st.timers st.cache (by rw [h2]; simp)).2]
          exact h2
      · by_cases hfire : t0 ≤ st.now + d
        · obtain ⟨hc, ht⟩ :=
            fireDue_single_due (st.now + d) tid t0 st.timers st.cache h1 hfire hnd
          refine Or.inl ⟨?_, ?_⟩
          · rw [hcache]; exact hc
          · rw [htimers]; exact ht
        · have hnotdue : ∀ d2 ∈ timersFor st.timers tid, ¬ d2 ≤ st.now + d := by
            intro d2 hd2 hle2
            rw [h1] at hd2
            simp only [List.mem_singleton] at hd2
            subst hd2
            exact hfire hle2
          obtain ⟨hc, ht⟩ := fireDue_not_due (st.now + d) tid st.timers st.cache hnotdue
          refine Or.inr ⟨?_, ?_⟩
          · rw [htimers, ht]
            exact h1
          · rw [hnow]
            omega

/-!
## The specification's claims
-/

/-- C1: For every ingested event whose payload yields a task identifier,
the resulting cached status follows the fixed table — taskCreated gives
`created`, taskStarted `started`, taskActive `active`, taskInteractive
`interactive`, taskIdle `idle`, taskCompleted `completed`, taskAborted
`aborted`, taskResumable `resumable` — and for every event whose name is
not in this table, an existing record's status after ingestion equals its
status before ingestion. -/
theorem claimC1_statusTable (s : EventServerState) (data : List JVal) (tid : JVal)
    (h : extractTaskId data = some tid) :
    (cacheGet (updateTaskStateCache "taskCreated" data s).cache tid).map TaskState.status = some "created"
  ∧ (cacheGet (updateTaskStateCache "taskStarted" data s).cache tid).map TaskState.status = some "started"
  ∧ (cacheGet (updateTaskStateCache "taskActive" data s).cache tid).map TaskState.status = some "active"
  ∧ (cacheGet (updateTaskStateCache "taskInteractive" data s).cache tid).map TaskState.status = some "interactive"
  ∧ (cacheGet (updateTaskStateCache "taskIdle" data s).cache tid).map TaskState.status = some "idle"
  ∧ (cacheGet (updateTaskStateCache "taskCompleted" data s).cache tid).map TaskState.status = some "completed"
  ∧ (cacheGet (updateTaskStateCache "taskAborted" data s).cache tid).map TaskState.status = some "aborted"
  ∧ (cacheGet (updateTaskStateCache "taskResumable" data s).cache tid).map TaskState.status = some "resumable"
  ∧ ∀ e, e ∉ (["taskCreated", "taskStarted", "taskActive", "taskInteractive",
        "taskIdle", "taskCompleted", "taskAborted", "taskResumable"] : List String) →
      ∀ r, cacheGet s.cache tid = some r →
        (cacheGet (updateTaskStateCache e data s).cache tid).map TaskState.status = some r.status := by
  refine ⟨?_, ?_, ?_, ?_, ?_, ?_, ?_, ?_, ?_⟩
  · rw [status_after_update _ data s tid h]; rfl
  · rw [status_after_update _ data s tid h]; rfl
  · rw [status_after_update _ data s tid h]; rfl
  · rw [status_after_update _ data s tid h]; rfl
  · rw [status_after_update _ data s tid h]; rfl
  · rw [status_after_update _ data s tid h]; rfl
  · rw [status_after_update _ data s tid h]; rfl
  · rw [status_after_update _ data s tid h]; rfl
  · intro e he r hr
    rw [status_after_update e data s tid h,
      (applySwitch_status_not_table e data s.now _ he).1]
    show some (getOrCreate s tid).status = some r.status
    rw [getOrCreate_some s tid r hr]

/-- C1 witness: a `taskCreated` event for a fresh identifier caches status
`created`. -/
theorem claimC1_witness :
    (cacheGet (updateTaskStateCache "taskCreated" [JVal.str "T1"] initialState).cache
      (JVal.str "T1")).map TaskState.status = some "created" :=
  (claimC1_statusTable initialState [JVal.str "T1"] (JVal.str "T1") (by decide)).1

/-- C8: an event from whose payload no task identifier can be extracted
leaves the whole event-server state (in particular the task-state cache)
unchanged, while the event is still forwarded as a live notification
envelope. -/
theorem claimC8_noTaskIdFrame (e : String) (data : List JVal) (s : EventServerState)
    (h : extractTaskId data = none) :
    handleRooCodeEvent e data s = (forwardEventToClients e data s.now, s) := by
  unfold handleRooCodeEvent
  rw [updateTaskStateCache_none e data s h]

/-- C8 witness: a `message` event whose payload is `undefined` is forwarded
but does not touch the cache. -/
theorem claimC8_witness :
    handleRooCodeEvent "message" [JVal.jsUndefined] initialState =
      (forwardEventToClients "message" [JVal.jsUndefined] 0, initialState) :=
  claimC8_noTaskIdFrame "message" [JVal.jsUndefined] initialState (by decide)

/-- C10: every event yielding a task identifier stamps the record's
last-update field with the current clock; an unseen identifier gets a
fresh record seeded with sentinel status `unknown` and empty history, and
for the five status-neutral events (taskFocused, taskUnfocused,
taskModeSwitched, taskTokenUsageUpdated, taskToolFailed) the stored record
is exactly that fresh record. -/
theorem claimC10_unseenCreation (s : EventServerState) (e : String)
    (data : List JVal) (tid : JVal) (h : extractTaskId data = some tid) :
    (∃ r, cacheGet (updateTaskStateCache e data s).cache tid = some r ∧
        r.lastUpdate = s.now)
  ∧ (cacheGet s.cache tid = none →
      cacheGet (updateTaskStateCache e data s).cache tid =
        some (applySwitch e data s.now
          { taskId := tid, status := "unknown", lastUpdate := s.now, messages := [] }).1)
  ∧ (cacheGet s.cache tid = none →
      ∀ e2 ∈ (["taskFocused", "taskUnfocused", "taskModeSwitched",
               "taskTokenUsageUpdated", "taskToolFailed"] : List String),
        cacheGet (updateTaskStateCache e2 data s).cache tid =
          some { taskId := tid, status := "unknown", lastUpdate := s.now,
                 messages := [] }) := by
  refine ⟨?_, ?_, ?_⟩
  · refine ⟨_, record_after_update e data s tid h, ?_⟩
    rw [applySwitch_lastUpdate]
  · intro hn
    rw [record_after_update e data s tid h, getOrCreate_none s tid hn]
  · intro hn e2 he2
    fin_cases he2 <;>
      rw [record_after_update _ data s tid h, getOrCreate_none s tid hn] <;> rfl

/-- C10 witness: a `taskFocused` event for an unseen identifier creates the
sentinel record. -/
theorem claimC10_witness :
    cacheGet (updateTaskStateCache "taskFocused" [JVal.str "T1"] initialState).cache
        (JVal.str "T1") =
      some { taskId := JVal.str "T1", status := "unknown", lastUpdate := 0,
             messages := [] } :=
  (claimC10_unseenCreation initialState "taskFocused" [JVal.str "T1"] (JVal.str "T1")
    (by decide)).2.2 (by decide) "taskFocused" (by decide)

/-- C2 counterexample: after `message`, `taskCompleted`, `taskStarted` for
the same identifier, the terminal status `completed` is overwritten by the
non-terminal `started` on the very same record — its message history is
retained, so no genuinely new task record was created. -/
theorem claimC2_counterexample :
    (cacheGet (runActions (overwriteTrace.take 2) initialState).cache
        (JVal.str "T1")).map TaskState.status = some "completed"
  ∧ (cacheGet (runActions overwriteTrace initialState).cache
        (JVal.str "T1")).map TaskState.status = some "started"
  ∧ ("started" ≠ "completed" ∧ "started" ≠ "aborted")
  ∧ (cacheGet (runActions overwriteTrace initialState).cache
        (JVal.str "T1")).map TaskState.messages =
      some [⟨0, JVal.str "hello"⟩] := by decide

/-- C2 (amended): a terminal status (`completed`/`aborted`) is protected
only against events outside the eight status-mapped names — those leave
the status unchanged — while any status-mapped event (here `taskStarted`)
overwrites the status per the table on the existing record, which keeps
its message history rather than being re-created fresh. -/
theorem claimC2_amended (s : EventServerState) (data : List JVal) (tid : JVal)
    (r : TaskState) (h : extractTaskId data = some tid)
    (hr : cacheGet s.cache tid = some r)
    (_hterm : r.status = "completed" ∨ r.status = "aborted") :
    (∀ e, e ∉ (["taskCreated", "taskStarted", "taskActive", "taskInteractive",
        "taskIdle", "taskCompleted", "taskAborted", "taskResumable"] : List String) →
      (cacheGet (updateTaskStateCache e data s).cache tid).map TaskState.status =
        some r.status)
  ∧ cacheGet (updateTaskStateCache "taskStarted" data s).cache tid =
      some { r with status := "started", lastUpdate := s.now } := by
  constructor
  · intro e he
    rw [status_after_update e data s tid h,
      (applySwitch_status_not_table e data s.now _ he).1]
    show some (getOrCreate s tid).status = some r.status
    rw [getOrCreate_some s tid r hr]
  · rw [record_after_update "taskStarted" data s tid h, getOrCreate_some s tid r hr]
    rfl

/-- C2 witness: the amended statement at the completed record produced by
the first two steps of the overwrite trace. -/
theorem claimC2_witness :
    cacheGet (updateTaskStateCache "taskStarted" [JVal.str "T1"]
        (runActions (overwriteTrace.take 2) initialState)).cache (JVal.str "T1") =
      some { taskId := JVal.str "T1", status := "started", lastUpdate := 0,
             messages := [⟨0, JVal.str "hello"⟩] } :=
  (claimC2_amended (runActions (overwriteTrace.take 2) initialState)
    [JVal.str "T1"] (JVal.str "T1")
    ⟨JVal.str "T1", "completed", 0, [⟨0, JVal.str "hello"⟩]⟩
    (by decide) (by decide) (Or.inl rfl)).2

/-- C4: the message history of every record reachable from the initial
state is capped at `MAX_MESSAGES_PER_TASK` (50), and one `message`-event
ingestion updates an existing record's history to exactly the most recent
50-suffix of the previous history with the new entry appended — so the
oldest entries are evicted first and the retained history is the most
recent suffix of the appended messages, in order. -/
theorem claimC4_messageHistory (acts : List ServerAction)
    (s : EventServerState) (data : List JVal) (tid tid2 : JVal) (r r2 : TaskState)
    (hr : cacheGet (runActions acts initialState).cache tid = some r)
    (h2 : extractTaskId data = some tid2)
    (hr2 : cacheGet s.cache tid2 = some r2) :
    r.messages.length ≤ MAX_MESSAGES_PER_TASK
  ∧ (cacheGet (updateTaskStateCache "message" data s).cache tid2).map TaskState.messages =
      some (lastN MAX_MESSAGES_PER_TASK
        (r2.messages ++ [⟨s.now, messageContent data⟩])) := by
  constructor
  · have hb : cacheBounded (runActions acts initialState).cache :=
      runActions_bounded acts initialState
        (fun p hp => absurd hp (List.not_mem_nil p))
    exact hb (tid, r) (cacheGet_mem _ tid r hr)
  · rw [record_after_update "message" data s tid2 h2, getOrCreate_some s tid2 r2 hr2]
    show some (trimMessages (r2.messages ++ [⟨s.now, messageContent data⟩])) = _
    rw [trimMessages_eq_lastN]

/-- C4 witness: the six-message record of the poll trace is within the cap. -/
theorem claimC4_witness :
    ({ taskId := JVal.str "T1", status := "unknown", lastUpdate := 0,
       messages := [⟨0, JVal.str "m1"⟩, ⟨0, JVal.str "m2"⟩, ⟨0, JVal.str "m3"⟩,
                    ⟨0, JVal.str "m4"⟩, ⟨0, JVal.str "m5"⟩, ⟨0, JVal.str "m6"⟩] } :
      TaskState).messages.length ≤ MAX_MESSAGES_PER_TASK :=
  (claimC4_messageHistory pollTrace (runActions pollTrace initialState)
    [JVal.str "T1", JVal.str "m7"] (JVal.str "T1") (JVal.str "T1")
    ⟨JVal.str "T1", "unknown", 0,
      [⟨0, JVal.str "m1"⟩, ⟨0, JVal.str "m2"⟩, ⟨0, JVal.str "m3"⟩,
       ⟨0, JVal.str "m4"⟩, ⟨0, JVal.str "m5"⟩, ⟨0, JVal.str "m6"⟩]⟩
    ⟨JVal.str "T1", "unknown", 0,
      [⟨0, JVal.str "m1"⟩, ⟨0, JVal.str "m2"⟩, ⟨0, JVal.str "m3"⟩,
       ⟨0, JVal.str "m4"⟩, ⟨0, JVal.str "m5"⟩, ⟨0, JVal.str "m6"⟩]⟩
    (by decide) (by decide) (by decide)).1

/-- C5: contrary to the documented five-message window, the polling read
path returns the record with its full bounded history — after six
`message` events, `getTaskState` returns all six messages. -/
theorem claimC5_fullHistoryReturned :
    getTaskState (runActions pollTrace initialState) (some "T1") =
      .single (some
        { taskId := JVal.str "T1", status := "unknown", lastUpdate := 0,
          messages := [⟨0, JVal.str "m1"⟩, ⟨0, JVal.str "m2"⟩, ⟨0, JVal.str "m3"⟩,
                       ⟨0, JVal.str "m4"⟩, ⟨0, JVal.str "m5"⟩, ⟨0, JVal.str "m6"⟩] })
  ∧ (queryMessages (getTaskState (runActions pollTrace initialState)
      (some "T1"))).length = 6 := by decide

/-- C3: a POST request whose session-id header is present (non-empty) but
names no registered session is answered with the `-32000` invalid/expired
session error, and the returned state is exactly the incoming one — the
transports registry is not mutated in any way. -/
theorem claimC3_invalidSession (st : McpHttpState) (freshId sid : String)
    (req : PostRequest) (hh : req.sessionIdHeader = some sid) (hne : sid ≠ "")
    (hu : sessionLookup st.transports sid = none) :
    handlePost st freshId req = (st, .json 400 (-32000) "Invalid or expired session ID") := by
  unfold handlePost
  rw [hh, Option.getD_some, if_neg hne, hu]

/-- C3 witness: an unknown session id against an empty registry. -/
theorem claimC3_witness :
    handlePost ⟨[], 0⟩ "F" ⟨some "S", false⟩ =
      (⟨[], 0⟩, .json 400 (-32000) "Invalid or expired session ID") :=
  claimC3_invalidSession ⟨[], 0⟩ "F" "S" ⟨some "S", false⟩ rfl (by decide) rfl

/-- C7: an initialization request with no session header allocates the
fresh session identifier, constructs a channel bound to it, registers it
in the transports map (where it is subsequently found), and processes the
request through that new channel; and any request carrying a (non-empty)
session header leaves the registry unchanged, so only header-less requests
create new channels. -/
theorem claimC7_initialization (st : McpHttpState) (freshId : String)
    (req : PostRequest) (hh : req.sessionIdHeader = none)
    (hinit : req.isInitialize = true)
    (hfresh : sessionLookup st.transports freshId = none) :
    (handlePost st freshId req).1.transports =
      st.transports ++ [(freshId, { id := st.nextTransportId, sessionId := some freshId })]
  ∧ sessionLookup (handlePost st freshId req).1.transports freshId =
      some { id := st.nextTransportId, sessionId := some freshId }
  ∧ (handlePost st freshId req).2 = .handledBy st.nextTransportId
  ∧ ∀ (req2 : PostRequest) (sid2 : String), req2.sessionIdHeader = some sid2 →
      sid2 ≠ "" → (handlePost st freshId req2).1 = st := by
  have hpost : handlePost st freshId req = handleNewTransport st freshId req := by
    unfold handlePost
    rw [hh]
    rfl
  have hnew : handleNewTransport st freshId req =
      ({ transports := st.transports ++
           [(freshId, { id := st.nextTransportId, sessionId := some freshId })],
         nextTransportId := st.nextTransportId + 1 },
       .handledBy st.nextTransportId) := by
    unfold handleNewTransport
    rw [hinit]
    rfl
  refine ⟨?_, ?_, ?_, ?_⟩
  · rw [hpost, hnew]
  · rw [hpost, hnew]
    exact sessionLookup_append_fresh freshId _ st.transports hfresh
  · rw [hpost, hnew]
  · intro req2 sid2 h2 hne2
    unfold handlePost
    rw [h2, Option.getD_some, if_neg hne2]
    cases hl : sessionLookup st.transports sid2 <;> rfl

/-- C7 witness: initializing against an empty registry registers the fresh
session. -/
theorem claimC7_witness :
    (handlePost ⟨[], 0⟩ "S1" ⟨none, true⟩).1.transports =
      [("S1", { id := 0, sessionId := some "S1" })] :=
  (claimC7_initialization ⟨[], 0⟩ "S1" ⟨none, true⟩ rfl rfl rfl).1

/-- C6: with the collaborator available, each of the four capability
operations propagates the collaborator's exception upward unmodified (the
very same error value, not swallowed or replaced), and the diagnostic it
emits names the attempted operation. -/
theorem claimC6_errorPropagation (ext : Option ExtensionHandle) (err : JsError)
    (hav : extensionUnavailable ext = false) :
    startNewTask ext (.error err) =
      (.error err, ["[RooCodeTaskAPI] Error starting task: " ++ err.message])
  ∧ sendMessage ext (.error err) =
      (.error err, ["[RooCodeTaskAPI] Error sending message: " ++ err.message])
  ∧ pressPrimaryButton ext (.error err) =
      (.error err, ["[RooCodeTaskAPI] Error pressing primary button: " ++ err.message])
  ∧ pressSecondaryButton ext (.error err) =
      (.error err, ["[RooCodeTaskAPI] Error pressing secondary button: " ++ err.message]) := by
  refine ⟨?_, ?_, ?_, ?_⟩ <;>
    simp [startNewTask, sendMessage, pressPrimaryButton, pressSecondaryButton, hav]

/-- C6 witness: an active extension with exports and a failing collaborator
call. -/
theorem claimC6_witness :
    startNewTask (some ⟨true, true⟩) (.error ⟨"boom"⟩) =
      (.error ⟨"boom"⟩, ["[RooCodeTaskAPI] Error starting task: boom"]) :=
  (claimC6_errorPropagation (some ⟨true, true⟩) ⟨"boom"⟩ (by decide)).1

/-- C9 counterexample: (a) a task that completes, restarts, and completes
again 2 s in is deleted by the first, never-cancelled timer 28 s after its
final terminal transition — less than the 30 s window; (b) a task id that
completed and was purged becomes visible to reads again once a later event
re-creates a record after the window. -/
theorem claimC9_counterexample :
    ((cacheGet (runActions (staleTimerTrace.take 5) initialState).cache
        (JVal.str "T")).map TaskState.status = some "completed"
  ∧ (runActions (staleTimerTrace.take 5) initialState).now = 2000
  ∧ (runActions staleTimerTrace initialState).now = 30000
  ∧ cacheGet (runActions staleTimerTrace initialState).cache (JVal.str "T") = none
  ∧ 30000 - 2000 < 30000)
  ∧ ((runActions reappearTrace initialState).now = 40000
  ∧ (cacheGet (runActions reappearTrace initialState).cache
      (JVal.str "T2")).isSome = true) := by decide

/-- C9 (amended): when a terminal event is ingested for an identifier with
no deletion already pending, the record stays queryable under any further
activity as long as the clock stays within the 30 s window, and — provided
no further event for that identifier re-creates it — it is absent from
reads once the clock passes the window. -/
theorem claimC9_retentionWindow (s : EventServerState) (data : List JVal)
    (tid : JVal) (e : String) (acts : List ServerAction)
    (hd : extractTaskId data = some tid)
    (he : e = "taskCompleted" ∨ e = "taskAborted")
    (hnt : timersFor s.timers tid = [])
    (hnd : (s.cache.map Prod.fst).Nodup) :
    ((runActions acts (updateTaskStateCache e data s)).now < s.now + cleanupDelayMs →
      (cacheGet (runActions acts (updateTaskStateCache e data s)).cache tid).isSome = true)
  ∧ ((∀ e2 d2, ServerAction.ingest e2 d2 ∈ acts → extractTaskId d2 ≠ some tid) →
      s.now + cleanupDelayMs ≤ (runActions acts (updateTaskStateCache e data s)).now →
      cacheGet (runActions acts (updateTaskStateCache e data s)).cache tid = none) := by
  have hsched : (applySwitch e data s.now
      { getOrCreate s tid with lastUpdate := s.now }).2 = true := by
    rcases he with rfl | rfl <;> rfl
  have hs1 := updateTaskStateCache_some e data s tid hd
  have hcache1 := record_after_update e data s tid hd
  have htimers1 : timersFor (updateTaskStateCache e data s).timers tid =
      [s.now + cleanupDelayMs] := by
    rw [hs1]
    dsimp only
    rw [if_pos hsched, timersFor_append, hnt, timersFor_cons, if_pos rfl]
    simp [timersFor]
  have hnow1 : (updateTaskStateCache e data s).now = s.now :=
    now_updateTaskStateCache e data s
  have hnd1 : ((updateTaskStateCache e data s).cache.map Prod.fst).Nodup := by
    rw [hs1]
    exact nodup_cacheSet s.cache tid _ hnd
  constructor
  · intro hlt
    apply presence_aux tid (s.now + cleanupDelayMs) acts _ ?_ ?_ ?_ hlt
    · rw [hcache1]; rfl
    · intro d2 hd2
      rw [htimers1] at hd2
      simp only [List.mem_singleton] at hd2
      exact le_of_eq hd2.symm
    · rw [hnow1]
  · intro hni hge
    apply absence_aux tid (s.now + cleanupDelayMs) acts _ hni hnd1 ?_ hge
    refine Or.inr ⟨htimers1, ?_⟩
    rw [hnow1]
    exact Nat.lt_add_of_pos_right (by decide)

/-- C9 witness: a freshly completed task is still readable after 1 s and
gone after 30 s of quiet time. -/
theorem claimC9_witness :
    (cacheGet (runActions [ServerAction.elapse 1000]
        (updateTaskStateCache "taskCompleted" [JVal.str "T"] initialState)).cache
        (JVal.str "T")).isSome = true
  ∧ cacheGet (runActions [ServerAction.elapse 30000]
        (updateTaskStateCache "taskCompleted" [JVal.str "T"] initialState)).cache
        (JVal.str "T") = none :=
  ⟨(claimC9_retentionWindow initialState [JVal.str "T"] (JVal.str "T")
      "taskCompleted" [ServerAction.elapse 1000] (by decide) (Or.inl rfl) rfl
      (by decide)).1 (by decide),
   (claimC9_retentionWindow initialState [JVal.str "T"] (JVal.str "T")
      "taskCompleted" [ServerAction.elapse 30000] (by decide) (Or.inl rfl) rfl
      (by decide)).2
     (by intro e2 d2 hm; simp at hm) (by decide)⟩
